import Mathlib

/-!
Verification of the segue-attacca music-library core against its
natural-language specification.

The development shallowly embeds the two Rust evolutions of the library:

* `src/segue-attacca-lib/src/music_library.rs` — the current evolution
  (`MusicLibrary`, `Track`, `Playlist`, `PlaylistItem`,
  `MusicLibrary::new_from_path`, `MusicLibrary::gc_tags`);
* `src/src/music.rs` — the older evolution (`MusicLibrary` with the
  playlist playback iterator `Playlist::next`); its names carry a `Src`
  suffix here.

Shared-pointer values (`Arc<str>`, `Arc<RwLock<Track>>`) are modelled as
plain values carrying an explicit allocation identity (`id`/`tid` field):
two model values are "the same shared instance" exactly when they are
equal, identity field included.  Lock acquisition (`RwLock::read`/`write`)
always succeeds in the sequential model: lock poisoning requires a panic
on another thread, which the model does not exhibit.  The `rayon`
`par_iter` loops mutate disjoint entities or go through the `scc`
concurrent maps, whose insert-or-get operations linearize; the model
executes one linearization, namely list order.  Code paths that panic on
reachable inputs (`unreachable!`, `Vec::remove` out of bounds) are
modelled by `Option`, with `none` standing for the panic.
-/

/-- Models `Arc<str>`: a shared string value together with the identity of
its allocation.  Two `ArcStr`s are the same shared instance iff they are
equal (same `id` and same `val`). -/
structure ArcStr where
  id : Nat
  val : String
deriving DecidableEq, Repr

/-- Models `Track` (both evolutions; the older one stores `tags` in a
`HashSet`, modelled as a list like the `Vec` of the newer one).  `tid`
models the identity of the `Arc<RwLock<Track>>` allocation that owns the
track. -/
structure Track where
  tid : Nat
  path : String
  name : String
  artist : Option ArcStr
  album_art : Option String
  tags : List ArcStr
deriving DecidableEq, Repr

/-- A directory tree as the scanner observes it.  `dirErr` is a directory
whose `read_dir` fails, `typeErr` an entry whose `file_type()` call fails,
and a `file` with `utf8 = false` is one whose name (or relative path)
is not valid UTF-8, so `to_str` returns `None`. -/
inductive FSNode where
  | file (name : String) (utf8 : Bool)
  | dirOk (name : String) (children : List FSNode)
  | dirErr (name : String)
  | typeErr (name : String)

/-- The entry's file name, as `DirEntry::file_name` reports it. -/
def nodeName : FSNode → String
  | .file n _ => n
  | .dirOk n _ => n
  | .dirErr n => n
  | .typeErr n => n

/-- Splits a character list at every dot, like `str::split('.')`. -/
def splitDot : List Char → List (List Char)
  | [] => [[]]
  | c :: cs =>
    let r := splitDot cs
    if c = '.' then [] :: r
    else
      match r with
      | [] => [[c]]
      | h :: t => (c :: h) :: t

/-- Models `Path::extension` on a file name: the portion after the final
dot, none if there is no dot or the only dot is the leading one. -/
def extension (fname : String) : Option String :=
  let parts := splitDot fname.toList
  match parts with
  | [] => none
  | [_] => none
  | [] :: [_] => none
  | _ => parts.getLast?.map (fun l => String.mk l)

/-- First-match association-list lookup, modelling a keyed map read. -/
def alookup {κ α : Type} [DecidableEq κ] : List (κ × α) → κ → Option α
  | [], _ => none
  | (k', v) :: r, k => if k' = k then some v else alookup r k

/-- Models `Vec::remove(i)`: `none` when `i` is out of bounds, i.e. the
call panics. -/
def vecRemove {α : Type} (xs : List α) (i : Nat) : Option (List α) :=
  if i < xs.length then some (xs.eraseIdx i) else none

/-! ## Tag garbage collector (`MusicLibrary::gc_tags`)

The collector inspects `Arc::strong_count` of each entry of the
`tags : Vec<Arc<str>>` table.  A tag's state is abstracted to its
identity plus `held`, the number of strong holders besides the table
itself (tracks carrying the tag), so `strong_count = held + 1`. -/

/-- One entry of the tag table as `gc_tags` sees it: `held` is the number
of strong references besides the table's own (`Arc::strong_count` minus
one). -/
structure GcTag where
  id : Nat
  held : Nat
deriving DecidableEq, Repr

/-- First block of `gc_tags` (music_library.rs lines 265-277): collect the
indices of tags with `strong_count > 1`, then for each, skip it when
`i < tags.len()` and otherwise call `Vec::remove(i)`.  The `Arc` clones
collected into `temp` are dropped again by the loop itself, before the
second block runs. -/
def gcFirstPass (tags : List GcTag) : Option (List GcTag) :=
  let temp := (tags.enum.filter (fun p => 0 < p.2.held)).map Prod.fst
  temp.foldlM (fun acc i => if i < acc.length then some acc else vecRemove acc i) tags

/-- Second block of `gc_tags` (lines 279-289): collect the indices of tags
with `strong_count = 1`, then remove them one by one with `Vec::remove`,
without adjusting the indices for earlier removals. -/
def gcSecondPass (tags : List GcTag) : Option (List GcTag) :=
  let indecies := (tags.enum.filter (fun p => p.2.held = 0)).map Prod.fst
  indecies.foldlM (fun acc i => vecRemove acc i) tags

/-- Models `MusicLibrary::gc_tags`, acting on the tag table; `none` models a
panic of `Vec::remove`. -/
def gc_tags (tags : List GcTag) : Option (List GcTag) :=
  (gcFirstPass tags).bind gcSecondPass

/-- The claim C3 example state: tags at indices 0 and 2 are held only by
the table, tags at indices 1 and 3 are each also held by a track. -/
def gcExample : List GcTag := [⟨0, 0⟩, ⟨1, 1⟩, ⟨2, 0⟩, ⟨3, 1⟩]

/-- C3: `gc_tags` is claimed to remove exactly the tags whose only holder
is the table.  On the state `[t0 unheld, t1 held, t2 unheld, t3 held]` the
code instead removes index 0 and then index 2 of the already-shrunk
vector: the still-held tag `t3` is removed and the unheld tag `t2`
survives, contradicting both halves of the claim. -/
theorem gc_tags_wrong_on_example :
    gc_tags gcExample = some [⟨1, 1⟩, ⟨2, 0⟩] ∧
    (⟨3, 1⟩ : GcTag) ∈ gcExample ∧ 0 < (⟨3, 1⟩ : GcTag).held ∧
    (⟨2, 0⟩ : GcTag).held = 0 := by
  decide

/-- C4: `gc_tags` is claimed idempotent.  On the same example state a
second call removes the leftover unheld tag `t2`, so running it twice
differs from running it once. -/
theorem gc_tags_not_idempotent_on_example :
    gc_tags gcExample = some [⟨1, 1⟩, ⟨2, 0⟩] ∧
    (gc_tags gcExample).bind gc_tags = some [⟨1, 1⟩] ∧
    (gc_tags gcExample).bind gc_tags ≠ gc_tags gcExample := by
  decide

/-- C10: `gc_tags` is claimed never to panic.  With two collectible tags
the second block collects indices `[0, 1]`, removes index 0, and then
calls `Vec::remove(1)` on a vector of length 1, which panics (modelled by
`none`). -/
theorem gc_tags_panics_on_two_collectible :
    gc_tags [⟨0, 0⟩, ⟨1, 0⟩] = none := by
  decide

/-! ## Playlist playback iterator (`src/src/music.rs`, `impl Iterator for Playlist`)

Playlist items are opaque to the iterator (it only clones and returns
them); an item is a shared reference to a track or to a playlist,
modelled by its allocation identity. -/

/-- Models the older evolution's `PlaylistItem`: a strong reference to a
track or to a playlist, identified by its allocation. -/
inductive PlaylistItemSrc where
  | track (tid : Nat)
  | playlist (pid : Nat)
deriving DecidableEq, Repr

/-- The `PlaybackMode` enum (music.rs lines 325-336). -/
inductive PlaybackMode where
  | Continuous
  | Shuffle
  | LoopContinuous
  | LoopShuffle
deriving DecidableEq, Repr

/-- The older evolution's `Playlist`: `play_queue` and `first` are the
serde-skipped iterator state, defaulting to empty and `true`. -/
structure PlaylistSrc where
  name : Option String
  items : List PlaylistItemSrc
  playback_mode : PlaybackMode
  play_queue : List PlaylistItemSrc
  first : Bool
deriving DecidableEq, Repr

/-- Models `Vec::pop`: removes and returns the last element. -/
def vecPop {α : Type} (xs : List α) : Option α × List α :=
  match xs with
  | [] => (none, [])
  | _ => (xs.getLast?, xs.dropLast)

/-- Models `Playlist::next` (music.rs lines 341-372), with the self-recursion of
the looping modes bounded by explicit fuel.  `rng` models
`SliceRandom::shuffle`, a permutation of the queue.  In the Rust code the
recursion only happens after `first` is reset to `true`, and that
recursive call refills the queue from the non-empty `items` and pops
successfully, so the real recursion depth is at most 2; `next` below
instantiates the fuel with exactly that bound. -/
def nextFuel (rng : List PlaylistItemSrc → List PlaylistItemSrc) :
    Nat → PlaylistSrc → Option PlaylistItemSrc × PlaylistSrc
  | 0, p => (none, p)
  | Nat.succ fuel, p =>
    if p.items.isEmpty then (none, p)
    else
      let p1 := if p.first then
          { p with
            first := false
            play_queue := match p.playback_mode with
              | .Shuffle | .LoopShuffle => rng p.items
              | .Continuous | .LoopContinuous => p.items.reverse }
        else p
      match vecPop p1.play_queue with
      | (some item, q) => (some item, { p1 with play_queue := q })
      | (none, _) =>
        match p1.playback_mode with
        | .LoopContinuous | .LoopShuffle => nextFuel rng fuel { p1 with first := true }
        | .Continuous | .Shuffle => (none, p1)

/-- The iterator step `Playlist::next` with the recursion-depth bound discussed above. -/
def PlaylistSrc.next (rng : List PlaylistItemSrc → List PlaylistItemSrc)
    (p : PlaylistSrc) : Option PlaylistItemSrc × PlaylistSrc :=
  nextFuel rng 2 p

/-- Runs `n` successive pulls of the iterator, collecting the outputs. -/
def pulls (rng : List PlaylistItemSrc → List PlaylistItemSrc) :
    Nat → PlaylistSrc → List (Option PlaylistItemSrc) × PlaylistSrc
  | 0, p => ([], p)
  | Nat.succ n, p =>
    let step := PlaylistSrc.next rng p
    let rest := pulls rng n step.2
    (step.1 :: rest.1, rest.2)

/-- A playlist as it stands when iteration begins: `play_queue` and
`first` hold their serde-skipped defaults (empty queue, `first = true`). -/
def freshPlaylist (items : List PlaylistItemSrc) (mode : PlaybackMode) : PlaylistSrc :=
  { name := none, items := items, playback_mode := mode, play_queue := [], first := true }

theorem vecPop_concat {α : Type} (q : List α) (a : α) :
    vecPop (q ++ [a]) = (some a, q) := by
  simp [vecPop, List.getLast?_concat, List.dropLast_concat]

theorem pulls_of_next_fixed (rng : List PlaylistItemSrc → List PlaylistItemSrc)
    (p : PlaylistSrc) (h : PlaylistSrc.next rng p = (none, p)) :
    ∀ n, pulls rng n p = (List.replicate n none, p) := by
  intro n
  induction n with
  | zero => rfl
  | succ n ih => simp [pulls, h, ih, List.replicate_succ]

theorem next_empty_items (rng : List PlaylistItemSrc → List PlaylistItemSrc)
    (p : PlaylistSrc) (h : p.items = []) : PlaylistSrc.next rng p = (none, p) := by
  simp [PlaylistSrc.next, nextFuel, h]

/-- C8: with an empty item list every pull, in every playback mode and
for every shuffle behaviour, yields nothing, and the iterator state never
changes. -/
theorem playlist_next_empty_terminates
    (mode : PlaybackMode) (rng : List PlaylistItemSrc → List PlaylistItemSrc) (n : Nat) :
    pulls rng n (freshPlaylist [] mode) = (List.replicate n none, freshPlaylist [] mode) :=
  pulls_of_next_fixed rng _ (next_empty_items rng _ rfl) n

theorem next_continuous_spent (rng : List PlaylistItemSrc → List PlaylistItemSrc)
    (l : List PlaylistItemSrc) (hl : l ≠ []) :
    PlaylistSrc.next rng
      { name := none, items := l, playback_mode := .Continuous,
        play_queue := [], first := false } =
    (none, { name := none, items := l, playback_mode := .Continuous,
             play_queue := [], first := false }) := by
  simp [PlaylistSrc.next, nextFuel, hl, vecPop]

theorem pulls_continuous_queue (rng : List PlaylistItemSrc → List PlaylistItemSrc)
    (l : List PlaylistItemSrc) (hl : l ≠ []) (q : List PlaylistItemSrc) (n : Nat) :
    pulls rng (q.length + n)
      { name := none, items := l, playback_mode := .Continuous,
        play_queue := q.reverse, first := false } =
    (q.map some ++ List.replicate n none,
     { name := none, items := l, playback_mode := .Continuous,
       play_queue := [], first := false }) := by
  induction q with
  | nil =>
    simpa using pulls_of_next_fixed rng _ (next_continuous_spent rng l hl) n
  | cons a q ih =>
    have hstep : PlaylistSrc.next rng
        { name := none, items := l, playback_mode := .Continuous,
          play_queue := q.reverse ++ [a], first := false } =
        (some a, { name := none, items := l, playback_mode := .Continuous,
                   play_queue := q.reverse, first := false }) := by
      simp [PlaylistSrc.next, nextFuel, hl, vecPop_concat]
    have hlen : (a :: q).length + n = Nat.succ (q.length + n) := by
      simp [Nat.succ_add]
    rw [hlen]
    simp [pulls, List.reverse_cons, hstep, ih]

theorem pulls_congr_of_next_eq (rng : List PlaylistItemSrc → List PlaylistItemSrc)
    (p p' : PlaylistSrc) (n : Nat)
    (h : PlaylistSrc.next rng p = PlaylistSrc.next rng p') :
    pulls rng (n + 1) p = pulls rng (n + 1) p' := by
  simp only [pulls, h]

/-- C7: in `Continuous` mode a fresh iterator over items `l` yields each
item exactly once, in original order, and then terminates: the first
`l.length` pulls return exactly `l`, and every later pull returns
nothing. -/
theorem playlist_continuous_plays_in_order
    (rng : List PlaylistItemSrc → List PlaylistItemSrc)
    (l : List PlaylistItemSrc) (n : Nat) :
    (pulls rng (l.length + n) (freshPlaylist l .Continuous)).1 =
      l.map some ++ List.replicate n none := by
  rcases Decidable.em (l = []) with h | h
  · subst h
    simp [playlist_next_empty_terminates]
  · have hstep : PlaylistSrc.next rng (freshPlaylist l .Continuous) =
        PlaylistSrc.next rng
          { name := none, items := l, playback_mode := .Continuous,
            play_queue := l.reverse, first := false } := by
      simp [PlaylistSrc.next, nextFuel, freshPlaylist, h]
    obtain ⟨m, hm⟩ : ∃ m, l.length + n = m + 1 := by
      cases l with
      | nil => exact absurd rfl h
      | cons b l' => exact ⟨l'.length + n, by simp [Nat.succ_add]⟩
    rw [hm, pulls_congr_of_next_eq rng _ _ m hstep, ← hm,
      pulls_continuous_queue rng l h l n]

/-! ## Library ingestion (`segue-attacca-lib/src/music_library.rs`, `MusicLibrary::new_from_path`)

The filesystem walk (lines 71-132) keeps a work list `read_queue` of
directory entries, popping from the `Vec`'s end and pushing discovered
subdirectory entries.  The model represents the `Vec` with its top as the
list head, so `Vec::pop` is pattern-matching on the head and pushing a
directory's children prepends them reversed (the Rust code appends them
in order, and the last appended is popped first). -/

def nodeSize : FSNode → Nat
  | .file _ _ => 1
  | .dirErr _ => 1
  | .typeErr _ => 1
  | .dirOk _ cs => 1 + nodesSize cs
where nodesSize : List FSNode → Nat
  | [] => 0
  | c :: cs => nodeSize c + nodesSize cs

/-- Total number of tree nodes sitting in the scan queue; the walk
processes each exactly once. -/
def queueWeight (q : List (String × FSNode)) : Nat :=
  (q.map (fun p => nodeSize p.2)).sum

theorem queueWeight_cons (e : String × FSNode) (q : List (String × FSNode)) :
    queueWeight (e :: q) = nodeSize e.2 + queueWeight q := by
  simp [queueWeight]

theorem one_le_nodeSize (n : FSNode) : 1 ≤ nodeSize n := by
  cases n <;> simp [nodeSize]

theorem queueWeight_append (q r : List (String × FSNode)) :
    queueWeight (q ++ r) = queueWeight q + queueWeight r := by
  simp [queueWeight]

theorem queueWeight_reverse (q : List (String × FSNode)) :
    queueWeight q.reverse = queueWeight q := by
  simp [queueWeight, List.sum_reverse]

theorem queueWeight_children (rel : String) (cs : List FSNode) :
    queueWeight (cs.map (fun c => (rel ++ "/" ++ nodeName c, c))) =
      nodeSize.nodesSize cs := by
  induction cs with
  | nil => simp [queueWeight, nodeSize.nodesSize]
  | cons c cs ih => simp [queueWeight, nodeSize.nodesSize] at ih ⊢; omega

/-- The filesystem walk of `new_from_path` (lines 71-132): pops an entry;
skips it when its file type cannot be read; for a file, computes the
extension of its name, skips on `None`, skips non-UTF-8 names/paths,
checks the extension against the allow list, and catalogs a new `Track`
when the relative path has not been visited; for a directory, pushes its
children (skipping it when `read_dir` fails).  Arguments: the queue of
`(relative path, entry)` pairs, the visited path set, the track list so
far (`lib.tracks`), and the next fresh `Arc` allocation identity. -/
def scanLoop : List (String × FSNode) → List String → List Track → Nat →
    List Track × Nat
  | [], _, tracks, nid => (tracks, nid)
  | (rel, node) :: rest, visited, tracks, nid =>
    match node with
    | .typeErr _ => scanLoop rest visited tracks nid
    | .dirErr _ => scanLoop rest visited tracks nid
    | .dirOk _ children =>
      scanLoop ((children.map (fun c => (rel ++ "/" ++ nodeName c, c))).reverse ++ rest)
        visited tracks nid
    | .file fname utf8 =>
      match extension fname with
      | none => scanLoop rest visited tracks nid
      | some ext =>
        if utf8 then
          if ext = "wav" ∨ ext = "mp3" ∨ ext = "flac" then
            if rel ∈ visited then scanLoop rest visited tracks nid
            else scanLoop rest (rel :: visited)
              (tracks ++ [{ tid := nid, path := rel, name := fname,
                            artist := none, album_art := none, tags := [] }])
              (nid + 1)
          else scanLoop rest visited tracks nid
        else scanLoop rest visited tracks nid
termination_by q _ _ _ => queueWeight q
decreasing_by
  all_goals simp [queueWeight_cons, queueWeight_append, queueWeight_reverse,
    queueWeight_children, nodeSize]

/-- The newer evolution's `PlaylistItem` (music_library.rs lines 352-357).
A `track` item owns a shared `Track` instance; a `playlist` item is a
`Weak` reference, modelled as `some u` when `Weak::upgrade` succeeds and
the target playlist's `uuid` is `u`, and `none` when the target is gone;
a `block` is an inline list of items. -/
inductive PlaylistItem where
  | track (t : Track)
  | playlist (w : Option Nat)
  | block (items : List PlaylistItem)

/-- The newer evolution's `Playlist` (lines 334-340). -/
structure Playlist where
  name : String
  items : List PlaylistItem
  uuid : Nat

/-- The newer evolution's `MusicLibrary` (lines 17-24).  The track and
playlist collections own shared instances, modelled by value with their
identity fields. -/
structure MusicLibrary where
  path : String
  tracks : List Track
  playlists : List Playlist
  artists : List ArcStr
  tags : List ArcStr

/-- The artist interning step of the dedup pass (lines 143-152): clone the
track's artist, try `scc::HashMap::insert`; when the insert loses because
an equal key is present, overwrite the track's artist with the table
read's result (the code assigns the returned `Option` directly).  The
table maps the string key to the winning `Arc` instance. -/
def internArtist (table : List (String × ArcStr)) (t : Track) :
    List (String × ArcStr) × Track :=
  match t.artist with
  | none => (table, t)
  | some a =>
    match alookup table a.val with
    | none => (table ++ [(a.val, a)], t)
    | some _ => (table, { t with artist := alookup table a.val })

/-- One tag interning step (lines 154-163): try to insert this tag's
`Arc`; when an equal value is already present, return the table's
instance.  The `unreachable!` branch (a read that fails right after a
failed insert) cannot occur in the linearized model, because a failed
insert means the key is present. -/
def internTag (table : List (String × ArcStr)) (g : ArcStr) :
    List (String × ArcStr) × ArcStr :=
  match alookup table g.val with
  | none => (table ++ [(g.val, g)], g)
  | some v => (table, v)

/-- Interning of a track's whole tag list, preserving order
(lines 153-165). -/
def internTags (table : List (String × ArcStr)) :
    List ArcStr → List (String × ArcStr) × List ArcStr
  | [] => (table, [])
  | g :: gs =>
    let s1 := internTag table g
    let s2 := internTags s1.1 gs
    (s2.1, s1.2 :: s2.2)

/-- The per-track body of the dedup pass (lines 139-167): register the
track in the path-keyed track map (`let _ = tracks.insert(...)`, first
writer wins), intern its artist, intern its tags.  The map holds the same
shared instance that the track list holds, so its entry carries the
track's fields as updated by the interning. -/
def processTrack (tracksMap : List (String × Track))
    (artists tags : List (String × ArcStr)) (t : Track) :
    List (String × Track) × List (String × ArcStr) × List (String × ArcStr) × Track :=
  let s1 := internArtist artists t
  let s2 := internTags tags s1.2.tags
  let t2 := { s1.2 with tags := s2.2 }
  let tracksMap2 :=
    match alookup tracksMap t.path with
    | none => tracksMap ++ [(t.path, t2)]
    | some _ => tracksMap
  (tracksMap2, s1.1, s2.1, t2)

/-- The dedup pass over all tracks, in list order (one linearization of
the `par_iter`). -/
def processTracks (tracksMap : List (String × Track))
    (artists tags : List (String × ArcStr)) :
    List Track →
      List (String × Track) × List (String × ArcStr) × List (String × ArcStr) × List Track
  | [] => (tracksMap, artists, tags, [])
  | t :: ts =>
    let s1 := processTrack tracksMap artists tags t
    let s2 := processTracks s1.1 s1.2.1 s1.2.2.1 ts
    (s2.1, s2.2.1, s2.2.2.1, s1.2.2.2 :: s2.2.2.2)

/-- Playlist registration (lines 168-177): insert each playlist into the
uuid-keyed map; a losing insert hits `unreachable!`, i.e. the process
panics (`none`). -/
def registerPlaylists (acc : List (Nat × Playlist)) :
    List Playlist → Option (List (Nat × Playlist))
  | [] => some acc
  | p :: ps =>
    match alookup acc p.uuid with
    | some _ => none
    | none => registerPlaylists (acc ++ [(p.uuid, p)]) ps

mutual
/-- Models `dedup_item` (lines 180-216): a `track` item is rewritten to the
canonical track found by path (dropped when absent); a `playlist` item is
dropped when its weak reference is dead or its uuid is not registered,
and otherwise re-pointed at the canonical playlist (same uuid); a `block`
keeps the item and resolves its children recursively. -/
def dedup_item (tracksMap : List (String × Track))
    (playlistsMap : List (Nat × Playlist)) : PlaylistItem → Option PlaylistItem
  | .track t => (alookup tracksMap t.path).map PlaylistItem.track
  | .playlist none => none
  | .playlist (some u) =>
    (alookup playlistsMap u).map (fun _ => PlaylistItem.playlist (some u))
  | .block items => some (.block (dedup_items tracksMap playlistsMap items))
/-- The `filter_map` over a list of items inside `dedup_item`. -/
def dedup_items (tracksMap : List (String × Track))
    (playlistsMap : List (Nat × Playlist)) : List PlaylistItem → List PlaylistItem
  | [] => []
  | i :: is =>
    match dedup_item tracksMap playlistsMap i with
    | some i2 => i2 :: dedup_items tracksMap playlistsMap is
    | none => dedup_items tracksMap playlistsMap is
end

/-- Lines 28-60 of `new_from_path`: the starting library — the parsed
snapshot with its stored root path overwritten by the opening path when
they differ, or a fresh empty library when the snapshot file cannot be
opened or parsed. -/
def loadedLib (path : String)
    (snapshotFile : Except Unit (Except Unit MusicLibrary)) : MusicLibrary :=
  match snapshotFile with
  | .ok (.ok parsed) =>
    if parsed.path ≠ path then { parsed with path := path } else parsed
  | _ => { path := path, tracks := [], playlists := [], artists := [], tags := [] }

/-- Models `MusicLibrary::new_from_path` (lines 27-239).  Inputs model the
environment: `rootDir` is the result of `read_dir(path)` on the root
(already flattened: entries whose `Result` was an error are absent);
`snapshotFile` is the result of opening `music_library.json` inside the
root and, when it opens, of parsing it; `freshId` supplies allocation
identities for newly created `Arc<RwLock<Track>>`s.  The outer `Option`
models a panic (`none`): the only reachable panic is the `unreachable!`
hit when two snapshot playlists carry the same uuid.  The `Except` is the
function's `Result`: an error is returned exactly when `read_dir(path)`
fails (the `?` on line 36). -/
def new_from_path (path : String) (rootDir : Except Unit (List FSNode))
    (snapshotFile : Except Unit (Except Unit MusicLibrary)) (freshId : Nat) :
    Option (Except Unit MusicLibrary) :=
  match rootDir with
  | .error e => some (.error e)
  | .ok entries =>
    let lib1 := loadedLib path snapshotFile
    let visited := lib1.tracks.map Track.path
    let queue := (entries.map (fun n => (nodeName n, n))).reverse
    let scanned := scanLoop queue visited lib1.tracks freshId
    let lib2 := { lib1 with tracks := scanned.1 }
    let passed := processTracks [] [] [] lib2.tracks
    match registerPlaylists [] lib2.playlists with
    | none => none
    | some playlistsMap =>
      let playlists2 := lib2.playlists.map
        (fun p => { p with items := dedup_items passed.1 playlistsMap p.items })
      some (.ok { path := lib2.path, tracks := passed.2.2.2,
                  playlists := playlists2,
                  artists := (passed.2.1).map Prod.snd,
                  tags := (passed.2.2.1).map Prod.snd })

/-! ## Library ingestion, older evolution (`src/src/music.rs`, `MusicLibrary::new_from_path`) -/

/-- The older evolution's `MusicLibrary` (music.rs lines 25-31): no
interning tables; `tags` maps a tag string to weak track references
(modelled as `Option` of the track allocation identity). -/
structure MusicLibrarySrc where
  path : String
  tracks : List Track
  playlists : List PlaylistSrc
  tags : List (ArcStr × List (Option Nat))

/-- The older scanner (music.rs lines 79-137): same walk as the newer
one, but the allow list is only `wav` and `mp3`, and there is no
visited-path set — every matching file is pushed unconditionally. -/
def scanLoopSrc : List (String × FSNode) → List Track → Nat → List Track × Nat
  | [], tracks, nid => (tracks, nid)
  | (rel, node) :: rest, tracks, nid =>
    match node with
    | .typeErr _ => scanLoopSrc rest tracks nid
    | .dirErr _ => scanLoopSrc rest tracks nid
    | .dirOk _ children =>
      scanLoopSrc ((children.map (fun c => (rel ++ "/" ++ nodeName c, c))).reverse ++ rest)
        tracks nid
    | .file fname utf8 =>
      match extension fname with
      | none => scanLoopSrc rest tracks nid
      | some ext =>
        if utf8 then
          if ext = "wav" ∨ ext = "mp3" then
            scanLoopSrc rest
              (tracks ++ [{ tid := nid, path := rel, name := fname,
                            artist := none, album_art := none, tags := [] }])
              (nid + 1)
          else scanLoopSrc rest tracks nid
        else scanLoopSrc rest tracks nid
termination_by q _ _ => queueWeight q
decreasing_by
  all_goals simp [queueWeight_cons, queueWeight_append, queueWeight_reverse,
    queueWeight_children, nodeSize]

/-- The older `MusicLibrary::new_from_path` (music.rs lines 34-141).
`read_dir(path)?` is the only returned error.  The snapshot is only
looked for among the root directory's own entries (`read_queue.iter()
.find`); when it is found, opens (`snapshotOpen`) and parses
(`snapshotParse`), the cached library is returned with its `path`
overwritten and no scan happens at all; otherwise a default library is
filled by the scan.  (The `file_name().to_str()` step cannot fail for an
entry whose name compared equal to the UTF-8 literal
`"music_library.json"`.) -/
def new_from_path_src (path : String) (rootDir : Except Unit (List FSNode))
    (snapshotOpen : Except Unit Unit) (snapshotParse : Except Unit MusicLibrarySrc)
    (freshId : Nat) : Except Unit MusicLibrarySrc :=
  match rootDir with
  | .error e => .error e
  | .ok entries =>
    let queue := (entries.map (fun n => (nodeName n, n))).reverse
    let libjson := entries.find? (fun n => nodeName n = "music_library.json")
    let cached : Option MusicLibrarySrc :=
      match libjson with
      | none => none
      | some _ =>
        match snapshotOpen with
        | .error _ => none
        | .ok _ =>
          match snapshotParse with
          | .error _ => none
          | .ok parsed => some { parsed with path := path }
    match cached with
    | some lib => .ok lib
    | none =>
      .ok { path := path, tracks := (scanLoopSrc queue [] freshId).1,
            playlists := [], tags := [] }

theorem alookup_eq_none {κ α : Type} [DecidableEq κ] (l : List (κ × α)) (k : κ) :
    alookup l k = none ↔ k ∉ l.map Prod.fst := by
  induction l with
  | nil => simp [alookup]
  | cons e r ih =>
    obtain ⟨k', v⟩ := e
    by_cases h : k' = k
    · subst h
      simp [alookup]
    · simp only [alookup, if_neg h, List.map_cons, List.mem_cons, not_or, ih]
      constructor
      · exact fun hk => ⟨fun he => h he.symm, hk⟩
      · exact fun hk => hk.2

theorem registerPlaylists_total (ps : List Playlist) :
    ∀ acc : List (Nat × Playlist),
      (acc.map Prod.fst ++ ps.map Playlist.uuid).Nodup →
      ∃ m, registerPlaylists acc ps = some m := by
  induction ps with
  | nil => exact fun acc _ => ⟨acc, rfl⟩
  | cons p ps ih =>
    intro acc h
    have habs : p.uuid ∉ acc.map Prod.fst := by
      intro hmem
      rcases List.nodup_append.mp h with ⟨-, -, hdisj⟩
      exact hdisj hmem (by simp)
    have hlook : alookup acc p.uuid = none := (alookup_eq_none acc p.uuid).mpr habs
    have hnext : (((acc ++ [(p.uuid, p)]).map Prod.fst) ++ ps.map Playlist.uuid).Nodup := by
      simpa [List.append_assoc] using h
    obtain ⟨m, hm⟩ := ih (acc ++ [(p.uuid, p)]) hnext
    exact ⟨m, by simp [registerPlaylists, hlook, hm]⟩

/-- The playlists the starting library carries: the parsed snapshot's, or
none. -/
theorem loadedLib_playlists (path : String)
    (snap : Except Unit (Except Unit MusicLibrary)) :
    (loadedLib path snap).playlists =
      match snap with
      | .ok (.ok parsed) => parsed.playlists
      | _ => [] := by
  rcases snap with e | s
  · rfl
  · rcases s with e | parsed
    · rfl
    · simp only [loadedLib]
      split <;> rfl

theorem loadedLib_path (path : String)
    (snap : Except Unit (Except Unit MusicLibrary)) :
    (loadedLib path snap).path = path := by
  rcases snap with e | s
  · rfl
  · rcases s with e | parsed
    · rfl
    · simp only [loadedLib]
      split
      · rfl
      · next h => simpa using h

/-- The hypothesis for panic-freedom of playlist registration: when a
snapshot was parsed, its playlists carry pairwise-distinct uuids. -/
def snapshotUuidsDistinct : Except Unit (Except Unit MusicLibrary) → Prop
  | .ok (.ok parsed) => (parsed.playlists.map Playlist.uuid).Nodup
  | _ => True

/-- C5: `new_from_path` returns an error exactly when the root directory
cannot be opened; with any other inputs — unreadable entries, an
unopenable or unparseable snapshot, dangling playlist references — it
returns a library (provided the snapshot's playlists carry distinct
uuids, without which the `unreachable!` of playlist registration panics
instead of returning at all). -/
theorem new_from_path_error_iff_root_unreadable
    (path : String) (rootDir : Except Unit (List FSNode))
    (snapshotFile : Except Unit (Except Unit MusicLibrary)) (freshId : Nat) :
    (new_from_path path rootDir snapshotFile freshId = some (.error ()) ↔
      rootDir = .error ())
    ∧ (rootDir ≠ .error () → snapshotUuidsDistinct snapshotFile →
        ∃ L, new_from_path path rootDir snapshotFile freshId = some (.ok L)) := by
  rcases rootDir with e | entries
  · cases e
    exact ⟨by simp [new_from_path], fun h => absurd rfl h⟩
  · constructor
    · simp only [new_from_path]
      constructor
      · intro h
        rcases hreg : registerPlaylists []
            (loadedLib path snapshotFile).playlists with _ | m <;>
          simp [hreg] at h
      · intro h
        exact absurd h (by simp)
    · intro _ hsnap
      have hnodup : ((([] : List (Nat × Playlist)).map Prod.fst) ++
          ((loadedLib path snapshotFile).playlists.map Playlist.uuid)).Nodup := by
        rw [loadedLib_playlists]
        rcases snapshotFile with e | s
        · simp
        · rcases s with e | parsed
          · simp
          · simpa [snapshotUuidsDistinct] using hsnap
      obtain ⟨m, hm⟩ := registerPlaylists_total _ [] hnodup
      simp only [new_from_path, hm]
      exact ⟨_, rfl⟩

/-- C9: in both evolutions, whenever `new_from_path` returns a library,
its `path` field is the path the library was opened with — a path stored
inside a successfully parsed snapshot is overwritten. -/
theorem new_from_path_overwrites_snapshot_path :
    (∀ (path : String) (rootDir : Except Unit (List FSNode))
       (snapshotFile : Except Unit (Except Unit MusicLibrary)) (freshId : Nat)
       (L : MusicLibrary),
       new_from_path path rootDir snapshotFile freshId = some (.ok L) →
       L.path = path)
    ∧ (∀ (path : String) (rootDir : Except Unit (List FSNode))
         (snapshotOpen : Except Unit Unit)
         (snapshotParse : Except Unit MusicLibrarySrc) (freshId : Nat)
         (L : MusicLibrarySrc),
         new_from_path_src path rootDir snapshotOpen snapshotParse freshId = .ok L →
         L.path = path) := by
  constructor
  · intro path rootDir snapshotFile freshId L h
    rcases rootDir with e | entries
    · simp [new_from_path] at h
    · simp only [new_from_path] at h
      rcases hreg : registerPlaylists []
          (loadedLib path snapshotFile).playlists with _ | m <;>
        rw [hreg] at h
      · simp at h
      · simp only [Option.some.injEq, Except.ok.injEq] at h
        rw [← h]
        exact loadedLib_path path snapshotFile
  · intro path rootDir snapshotOpen snapshotParse freshId L h
    rcases rootDir with e | entries
    · simp [new_from_path_src] at h
    · simp only [new_from_path_src] at h
      rcases hfind : List.find? (fun n => nodeName n = "music_library.json") entries
        with _ | n <;> rw [hfind] at h
      · simp at h
        rw [← h]
      · rcases snapshotOpen with e | u
        · simp at h
          rw [← h]
        · rcases snapshotParse with e | parsed <;> simp at h <;> rw [← h]

theorem new_from_path_error_iff_root_unreadable_witness :
    (new_from_path "root" (.error ()) (.ok (.error ())) 0 = some (.error ())) ∧
    (∃ L, new_from_path "root"
        (.ok [FSNode.dirErr "bad", FSNode.typeErr "odd", FSNode.file "x.mp3" true])
        (.error ()) 0 = some (.ok L)) := by
  constructor
  · exact (new_from_path_error_iff_root_unreadable "root" (.error ())
      (.ok (.error ())) 0).1.mpr rfl
  · exact (new_from_path_error_iff_root_unreadable "root"
      (.ok [FSNode.dirErr "bad", FSNode.typeErr "odd", FSNode.file "x.mp3" true])
      (.error ()) 0).2 (by simp) (by simp [snapshotUuidsDistinct])

/-- A snapshot whose stored root path differs from the opening path. -/
def relocatedSnapshot : MusicLibrary :=
  { path := "elsewhere", tracks := [], playlists := [], artists := [], tags := [] }

/-- A parsed older-evolution snapshot with a stale stored path. -/
def relocatedSnapshotSrc : MusicLibrarySrc :=
  { path := "elsewhere", tracks := [], playlists := [], tags := [] }

theorem new_from_path_overwrites_snapshot_path_witness :
    (∃ L, new_from_path "root" (.ok []) (.ok (.ok relocatedSnapshot)) 0 =
        some (.ok L) ∧ L.path = "root") ∧
    (∃ L, new_from_path_src "root" (.ok [FSNode.file "music_library.json" true])
        (.ok ()) (.ok relocatedSnapshotSrc) 0 = .ok L ∧ L.path = "root") := by
  have h1 : new_from_path "root" (.ok []) (.ok (.ok relocatedSnapshot)) 0 =
      some (.ok { path := "root", tracks := [], playlists := [],
                  artists := [], tags := [] }) := by
    have hne : relocatedSnapshot.path ≠ "root" := by decide
    simp [new_from_path, loadedLib, hne, relocatedSnapshot, scanLoop,
      processTracks, registerPlaylists]
  have h2 : new_from_path_src "root" (.ok [FSNode.file "music_library.json" true])
      (.ok ()) (.ok relocatedSnapshotSrc) 0 =
      .ok { relocatedSnapshotSrc with path := "root" } := by
    simp [new_from_path_src, nodeName, List.find?]
  exact ⟨⟨_, h1, (new_from_path_overwrites_snapshot_path).1 "root" _ _ 0 _ h1⟩,
    ⟨_, h2, (new_from_path_overwrites_snapshot_path).2 "root" _ _ _ 0 _ h2⟩⟩

/-- A persisted snapshot that itself contains two distinct shared `Track`
instances with the same path. -/
def dupSnapshot : MusicLibrary :=
  { path := "root",
    tracks :=
      [{ tid := 0, path := "a.mp3", name := "a.mp3", artist := none,
         album_art := none, tags := [] },
       { tid := 1, path := "a.mp3", name := "a.mp3", artist := none,
         album_art := none, tags := [] }],
    playlists := [], artists := [], tags := [] }

/-- C1 counterexample: when the loaded snapshot itself carries two tracks
with equal path, `new_from_path` keeps both shared instances in the
returned track collection — nothing collapses duplicates that are already
inside the snapshot (the visited-path set only prevents the scan from
adding more). -/
theorem new_from_path_keeps_snapshot_duplicate_paths :
    new_from_path "root" (.ok []) (.ok (.ok dupSnapshot)) 100 =
      some (.ok { path := "root", tracks := dupSnapshot.tracks,
                  playlists := [], artists := [], tags := [] }) ∧
    dupSnapshot.tracks.length = 2 ∧
    (dupSnapshot.tracks.map Track.path) = ["a.mp3", "a.mp3"] ∧
    dupSnapshot.tracks.get? 0 ≠ dupSnapshot.tracks.get? 1 := by
  refine ⟨?_, by decide, by decide, by decide⟩
  simp [new_from_path, loadedLib, dupSnapshot, scanLoop, processTracks,
    processTrack, internArtist, internTags, alookup, registerPlaylists]

theorem internArtist_path (A : List (String × ArcStr)) (t : Track) :
    ((internArtist A t).2).path = t.path := by
  rcases ht : t.artist with _ | a
  · simp [internArtist, ht]
  · rcases h : alookup A a.val with _ | v <;> simp [internArtist, ht, h]

theorem processTracks_paths (ts : List Track) :
    ∀ (M : List (String × Track)) (A T : List (String × ArcStr)),
      ((processTracks M A T ts).2.2.2).map Track.path = ts.map Track.path := by
  induction ts with
  | nil => intro M A T; rfl
  | cons t ts ih =>
    intro M A T
    simp only [processTracks, List.map_cons]
    rw [ih]
    have : ({ (internArtist A t).2 with
        tags := (internTags T (internArtist A t).2.tags).2 } : Track).path = t.path := by
      simpa using internArtist_path A t
    simp [processTrack, this]

theorem scanLoop_paths_nodup (q : List (String × FSNode)) (visited : List String)
    (tracks : List Track) (nid : Nat) :
    (∀ t ∈ tracks, t.path ∈ visited) →
    (tracks.map Track.path).Nodup →
    ((scanLoop q visited tracks nid).1.map Track.path).Nodup := by
  induction q, visited, tracks, nid using scanLoop.induct with
  | case1 visited tracks nid =>
    intro _ hnd
    simpa [scanLoop] using hnd
  | case2 rel rest visited tracks nid name ih =>
    intro hs hnd
    simpa [scanLoop] using ih hs hnd
  | case3 rel rest visited tracks nid name ih =>
    intro hs hnd
    simpa [scanLoop] using ih hs hnd
  | case4 rel rest visited tracks nid name children ih =>
    intro hs hnd
    simpa [scanLoop] using ih hs hnd
  | case5 rel rest visited tracks nid fname utf8 hext ih =>
    intro hs hnd
    simpa [scanLoop, hext] using ih hs hnd
  | case6 rel rest visited tracks nid fname ext hext hallow hmem ih =>
    intro hs hnd
    simpa [scanLoop, hext, hallow, hmem] using ih hs hnd
  | case7 rel rest visited tracks nid fname ext hext hallow hmem ih =>
    intro hs hnd
    have hs2 : ∀ t ∈ tracks ++ [(⟨nid, rel, fname, none, none, []⟩ : Track)],
        t.path ∈ rel :: visited := by
      intro t ht
      rcases List.mem_append.mp ht with h1 | h2
      · exact List.mem_cons_of_mem _ (hs t h1)
      · simp at h2
        subst h2
        exact List.mem_cons_self _ _
    have hrel : rel ∉ tracks.map Track.path := by
      intro hmem2
      obtain ⟨t, ht, hpath⟩ := List.mem_map.mp hmem2
      exact hmem (hpath ▸ hs t ht)
    have hnd2 : ((tracks ++ [(⟨nid, rel, fname, none, none, []⟩ : Track)]).map
        Track.path).Nodup := by
      simp only [List.map_append, List.map_cons, List.map_nil]
      exact List.Nodup.append hnd (by simp) (by simpa [List.disjoint_singleton] using hrel)
    simpa [scanLoop, hext, hallow, hmem] using ih hs2 hnd2
  | case8 rel rest visited tracks nid fname ext hext hallow ih =>
    intro hs hnd
    simpa [scanLoop, hext, hallow] using ih hs hnd
  | case9 rel rest visited tracks nid fname utf8 ext hext hutf ih =>
    intro hs hnd
    simpa [scanLoop, hext, hutf] using ih hs hnd

theorem loadedLib_tracks (path : String)
    (snap : Except Unit (Except Unit MusicLibrary)) :
    (loadedLib path snap).tracks =
      match snap with
      | .ok (.ok parsed) => parsed.tracks
      | _ => [] := by
  rcases snap with e | s
  · rfl
  · rcases s with e | parsed
    · rfl
    · simp only [loadedLib]
      split <;> rfl

/-- The fields of a successfully returned library, expressed through the
pipeline stages: the scan extends the loaded tracks, the dedup pass
rewrites them and fills the interning tables, and the tables are dumped
into the `artists`/`tags` lists. -/
theorem new_from_path_ok_fields (path : String) (rootDir : Except Unit (List FSNode))
    (snap : Except Unit (Except Unit MusicLibrary)) (fid : Nat) (L : MusicLibrary)
    (h : new_from_path path rootDir snap fid = some (.ok L)) :
    ∃ entries, rootDir = .ok entries ∧
      (L.tracks = (processTracks [] [] []
          (scanLoop ((entries.map (fun n => (nodeName n, n))).reverse)
            ((loadedLib path snap).tracks.map Track.path)
            (loadedLib path snap).tracks fid).1).2.2.2 ∧
       L.artists = ((processTracks [] [] []
          (scanLoop ((entries.map (fun n => (nodeName n, n))).reverse)
            ((loadedLib path snap).tracks.map Track.path)
            (loadedLib path snap).tracks fid).1).2.1).map Prod.snd ∧
       L.tags = ((processTracks [] [] []
          (scanLoop ((entries.map (fun n => (nodeName n, n))).reverse)
            ((loadedLib path snap).tracks.map Track.path)
            (loadedLib path snap).tracks fid).1).2.2.1).map Prod.snd) := by
  rcases rootDir with e | entries
  · simp [new_from_path] at h
  · refine ⟨entries, rfl, ?_⟩
    simp only [new_from_path] at h
    rcases hreg : registerPlaylists [] (loadedLib path snap).playlists with _ | m <;>
      rw [hreg] at h
    · simp at h
    · simp only [Option.some.injEq, Except.ok.injEq] at h
      rw [← h]
      exact ⟨rfl, rfl, rfl⟩

/-- The hypothesis under which the dedup invariant holds: when a snapshot
was parsed, it does not itself contain two tracks with equal path. -/
def snapshotPathsDistinct : Except Unit (Except Unit MusicLibrary) → Prop
  | .ok (.ok parsed) => (parsed.tracks.map Track.path).Nodup
  | _ => True

/-- C1 (amended): provided the loaded snapshot carries no duplicate paths
itself, any two tracks in the returned catalog's track collection with
equal path are the same shared instance. -/
theorem new_from_path_tracks_path_dedup (path : String)
    (rootDir : Except Unit (List FSNode))
    (snap : Except Unit (Except Unit MusicLibrary)) (fid : Nat) (L : MusicLibrary)
    (hsnap : snapshotPathsDistinct snap)
    (h : new_from_path path rootDir snap fid = some (.ok L)) :
    ∀ t1 ∈ L.tracks, ∀ t2 ∈ L.tracks, t1.path = t2.path → t1 = t2 := by
  obtain ⟨entries, -, htr, -, -⟩ := new_from_path_ok_fields path rootDir snap fid L h
  have hnd0 : ((loadedLib path snap).tracks.map Track.path).Nodup := by
    rw [loadedLib_tracks]
    rcases snap with e | s
    · simp
    · rcases s with e | parsed
      · simp
      · simpa [snapshotPathsDistinct] using hsnap
  have hsub : ∀ t ∈ (loadedLib path snap).tracks,
      t.path ∈ (loadedLib path snap).tracks.map Track.path :=
    fun t ht => List.mem_map_of_mem Track.path ht
  have hnd : (L.tracks.map Track.path).Nodup := by
    rw [htr, processTracks_paths]
    exact scanLoop_paths_nodup _ _ _ _ hsub hnd0
  intro t1 h1 t2 h2 hp
  exact List.inj_on_of_nodup_map hnd h1 h2 hp

/-- The catalog produced by scanning a root holding one `a.mp3` with no
snapshot present. -/
def scannedLib : MusicLibrary :=
  { path := "root",
    tracks := [{ tid := 0, path := "a.mp3", name := "a.mp3", artist := none,
                 album_art := none, tags := [] }],
    playlists := [], artists := [], tags := [] }

theorem new_from_path_tracks_path_dedup_witness :
    new_from_path "root" (.ok [.file "a.mp3" true]) (.error ()) 0 =
      some (.ok scannedLib) ∧
    ∀ t1 ∈ scannedLib.tracks, ∀ t2 ∈ scannedLib.tracks,
      t1.path = t2.path → t1 = t2 := by
  have hrun : new_from_path "root" (.ok [.file "a.mp3" true]) (.error ()) 0 =
      some (.ok scannedLib) := by
    have hext : extension "a.mp3" = some "mp3" := by decide
    simp [new_from_path, loadedLib, scannedLib, scanLoop, nodeName, hext,
      processTracks, processTrack, internArtist, internTags, alookup,
      registerPlaylists]
  exact ⟨hrun, new_from_path_tracks_path_dedup "root" _ _ 0 scannedLib
    (by simp [snapshotPathsDistinct]) hrun⟩

/-- Well-formedness of an interning table: distinct keys, and each stored
shared instance's string equals its key. -/
def tableOK (tab : List (String × ArcStr)) : Prop :=
  (tab.map Prod.fst).Nodup ∧ ∀ e ∈ tab, e.2.val = e.1

theorem alookup_mem {κ α : Type} [DecidableEq κ] (l : List (κ × α)) (k : κ) (v : α)
    (h : alookup l k = some v) : (k, v) ∈ l := by
  induction l with
  | nil => simp [alookup] at h
  | cons e r ih =>
    obtain ⟨k', v'⟩ := e
    by_cases hk : k' = k
    · subst hk
      simp [alookup] at h
      simp [h]
    · simp only [alookup, if_neg hk] at h
      exact List.mem_cons_of_mem _ (ih h)

theorem mem_alookup_of_nodup {κ α : Type} [DecidableEq κ] (l : List (κ × α))
    (k : κ) (v : α) (hnd : (l.map Prod.fst).Nodup) (h : (k, v) ∈ l) :
    alookup l k = some v := by
  induction l with
  | nil => simp at h
  | cons e r ih =>
    obtain ⟨k', v'⟩ := e
    rcases List.mem_cons.mp h with h1 | h2
    · obtain ⟨rfl, rfl⟩ : k = k' ∧ v = v' := by simpa [Prod.ext_iff, eq_comm] using h1
      simp [alookup]
    · have hk : k' ≠ k := by
        rintro rfl
        have := List.mem_map_of_mem Prod.fst h2
        exact (List.nodup_cons.mp hnd).1 this
      simp only [alookup, if_neg hk]
      exact ih (List.nodup_cons.mp hnd).2 h2

theorem tableOK_unique_val (tab : List (String × ArcStr)) (hok : tableOK tab) :
    ∀ x ∈ tab.map Prod.snd, ∀ y ∈ tab.map Prod.snd, x.val = y.val → x = y := by
  intro x hx y hy hval
  obtain ⟨⟨kx, x'⟩, hex, rfl⟩ := List.mem_map.mp hx
  obtain ⟨⟨ky, y'⟩, hey, rfl⟩ := List.mem_map.mp hy
  have hkx : x'.val = kx := hok.2 _ hex
  have hky : y'.val = ky := hok.2 _ hey
  have hkk : kx = ky := by rw [← hkx, ← hky, hval]
  subst hkk
  have h1 := mem_alookup_of_nodup tab kx x' hok.1 hex
  have h2 := mem_alookup_of_nodup tab kx y' hok.1 hey
  exact Option.some.inj (h1.symm.trans h2)

/-- What the artist interning step guarantees: the table stays
well-formed and only grows, and the resulting track's artist reference is
in the table. -/
theorem internArtist_spec (A : List (String × ArcStr)) (t : Track) (hok : tableOK A) :
    tableOK (internArtist A t).1 ∧ A ⊆ (internArtist A t).1 ∧
    (∀ a, ((internArtist A t).2).artist = some a → (a.val, a) ∈ (internArtist A t).1) ∧
    ((internArtist A t).2).tags = t.tags := by
  rcases ht : t.artist with _ | a
  · have heq : internArtist A t = (A, t) := by simp [internArtist, ht]
    rw [heq]
    exact ⟨hok, fun x hx => hx, fun b hb => absurd (ht ▸ hb) (by simp), rfl⟩
  · rcases h : alookup A a.val with _ | v
    · have heq : internArtist A t = (A ++ [(a.val, a)], t) := by
        simp [internArtist, ht, h]
      rw [heq]
      refine ⟨⟨?_, ?_⟩, ?_, ?_, rfl⟩
      · simp only [List.map_append, List.map_cons, List.map_nil]
        refine List.Nodup.append hok.1 (by simp) ?_
        simpa [List.disjoint_singleton] using (alookup_eq_none A a.val).mp h
      · intro e he
        rcases List.mem_append.mp he with h1 | h2
        · exact hok.2 e h1
        · simp at h2
          simp [h2]
      · exact fun x hx => List.mem_append_left _ hx
      · intro b hb
        have hb2 : a = b := by
          have := ht.symm.trans hb
          simpa using this
        subst hb2
        simp
    · have heq : internArtist A t = (A, { t with artist := alookup A a.val }) := by
        simp [internArtist, ht, h]
      rw [heq]
      have hmem := alookup_mem A a.val v h
      have hv : v.val = a.val := hok.2 _ hmem
      refine ⟨hok, fun x hx => hx, ?_, rfl⟩
      intro b hb
      have hb2 : v = b := by
        have : alookup A a.val = some b := by simpa using hb
        rw [h] at this
        simpa using this
      subst hb2
      simpa [hv] using hmem

theorem internTag_spec (T : List (String × ArcStr)) (g : ArcStr) (hok : tableOK T) :
    tableOK (internTag T g).1 ∧ T ⊆ (internTag T g).1 ∧
    (((internTag T g).2).val, (internTag T g).2) ∈ (internTag T g).1 := by
  rcases h : alookup T g.val with _ | v
  · have heq : internTag T g = (T ++ [(g.val, g)], g) := by simp [internTag, h]
    rw [heq]
    refine ⟨⟨?_, ?_⟩, fun x hx => List.mem_append_left _ hx, by simp⟩
    · simp only [List.map_append, List.map_cons, List.map_nil]
      refine List.Nodup.append hok.1 (by simp) ?_
      simpa [List.disjoint_singleton] using (alookup_eq_none T g.val).mp h
    · intro e he
      rcases List.mem_append.mp he with h1 | h2
      · exact hok.2 e h1
      · simp at h2
        simp [h2]
  · have heq : internTag T g = (T, v) := by simp [internTag, h]
    rw [heq]
    have hmem := alookup_mem T g.val v h
    have hv : v.val = g.val := hok.2 _ hmem
    exact ⟨hok, fun x hx => hx, by simpa [hv] using hmem⟩

theorem internTags_spec (gs : List ArcStr) :
    ∀ T : List (String × ArcStr), tableOK T →
      tableOK (internTags T gs).1 ∧ T ⊆ (internTags T gs).1 ∧
      ∀ g ∈ (internTags T gs).2, (g.val, g) ∈ (internTags T gs).1 := by
  induction gs with
  | nil => exact fun T hok => ⟨hok, fun x hx => hx, by simp [internTags]⟩
  | cons g gs ih =>
    intro T hok
    obtain ⟨hok1, hsub1, hmem1⟩ := internTag_spec T g hok
    obtain ⟨hok2, hsub2, hmem2⟩ := ih (internTag T g).1 hok1
    refine ⟨by simpa [internTags] using hok2,
      fun x hx => by simpa [internTags] using hsub2 (hsub1 hx), ?_⟩
    intro g2 hg2
    simp only [internTags, List.mem_cons] at hg2 ⊢
    rcases hg2 with h1 | h2
    · subst h1
      exact hsub2 hmem1
    · exact hmem2 g2 h2

/-- The dedup pass as a whole: both tables come out well-formed and only
grow, and every processed track's artist reference and tag references are
entries of the final tables. -/
theorem processTracks_spec (ts : List Track) :
    ∀ (M : List (String × Track)) (A T : List (String × ArcStr)),
      tableOK A → tableOK T →
      tableOK (processTracks M A T ts).2.1 ∧ tableOK (processTracks M A T ts).2.2.1 ∧
      A ⊆ (processTracks M A T ts).2.1 ∧ T ⊆ (processTracks M A T ts).2.2.1 ∧
      ∀ t ∈ (processTracks M A T ts).2.2.2,
        (∀ a, t.artist = some a → (a.val, a) ∈ (processTracks M A T ts).2.1) ∧
        (∀ g ∈ t.tags, (g.val, g) ∈ (processTracks M A T ts).2.2.1) := by
  induction ts with
  | nil =>
    intro M A T hokA hokT
    exact ⟨hokA, hokT, fun x hx => hx, fun x hx => hx, by simp [processTracks]⟩
  | cons t ts ih =>
    intro M A T hokA hokT
    obtain ⟨hokA1, hsubA1, hart1, -⟩ := internArtist_spec A t hokA
    obtain ⟨hokT1, hsubT1, hmemT1⟩ :=
      internTags_spec ((internArtist A t).2).tags T hokT
    obtain ⟨hokA2, hokT2, hsubA2, hsubT2, hall⟩ :=
      ih (processTrack M A T t).1 (processTrack M A T t).2.1
        (processTrack M A T t).2.2.1 hokA1 hokT1
    refine ⟨hokA2, hokT2, fun x hx => hsubA2 (hsubA1 hx),
      fun x hx => hsubT2 (hsubT1 hx), ?_⟩
    intro t2 ht2
    have ht3 : t2 = (processTrack M A T t).2.2.2 ∨
        t2 ∈ (processTracks (processTrack M A T t).1 (processTrack M A T t).2.1
          (processTrack M A T t).2.2.1 ts).2.2.2 := List.mem_cons.mp ht2
    rcases ht3 with h1 | h2
    · subst h1
      constructor
      · intro a ha
        have ha2 : ((internArtist A t).2).artist = some a := ha
        exact hsubA2 (hart1 a ha2)
      · intro g hg
        have hg2 : g ∈ (internTags T ((internArtist A t).2).tags).2 := hg
        exact hsubT2 (hmemT1 g hg2)
    · exact hall t2 h2

/-- C2: after `new_from_path` returns, each of the artist and tag tables
holds at most one shared instance per string value, and every track's
artist reference and tag references are instances of the corresponding
table (the loser of a racing insertion ends up holding the winner's
instance). -/
theorem new_from_path_interning_invariant (path : String)
    (rootDir : Except Unit (List FSNode))
    (snap : Except Unit (Except Unit MusicLibrary)) (fid : Nat) (L : MusicLibrary)
    (h : new_from_path path rootDir snap fid = some (.ok L)) :
    (∀ x ∈ L.artists, ∀ y ∈ L.artists, x.val = y.val → x = y) ∧
    (∀ x ∈ L.tags, ∀ y ∈ L.tags, x.val = y.val → x = y) ∧
    (∀ t ∈ L.tracks, ∀ a, t.artist = some a → a ∈ L.artists) ∧
    (∀ t ∈ L.tracks, ∀ g ∈ t.tags, g ∈ L.tags) := by
  obtain ⟨entries, -, htr, hart, htag⟩ :=
    new_from_path_ok_fields path rootDir snap fid L h
  obtain ⟨hokA, hokT, -, -, hall⟩ :=
    processTracks_spec (scanLoop ((entries.map (fun n => (nodeName n, n))).reverse)
        ((loadedLib path snap).tracks.map Track.path)
        (loadedLib path snap).tracks fid).1 [] [] []
      ⟨List.nodup_nil, by simp⟩ ⟨List.nodup_nil, by simp⟩
  refine ⟨?_, ?_, ?_, ?_⟩
  · rw [hart]
    exact tableOK_unique_val _ hokA
  · rw [htag]
    exact tableOK_unique_val _ hokT
  · intro t ht a ha
    rw [htr] at ht
    rw [hart]
    exact List.mem_map_of_mem Prod.snd ((hall t ht).1 a ha)
  · intro t ht g hg
    rw [htr] at ht
    rw [htag]
    exact List.mem_map_of_mem Prod.snd ((hall t ht).2 g hg)

/-- A snapshot whose two tracks carry distinct `Arc` allocations of the
same artist string and of the same tag string. -/
def internSnapshot : MusicLibrary :=
  { path := "root",
    tracks := [⟨0, "a.mp3", "a.mp3", some ⟨10, "x"⟩, none, [⟨20, "rock"⟩]⟩,
               ⟨1, "b.mp3", "b.mp3", some ⟨11, "x"⟩, none, [⟨21, "rock"⟩]⟩],
    playlists := [], artists := [], tags := [] }

/-- What ingesting `internSnapshot` produces: one shared artist instance
and one shared tag instance, referenced by both tracks. -/
def internedLib : MusicLibrary :=
  { path := "root",
    tracks := [⟨0, "a.mp3", "a.mp3", some ⟨10, "x"⟩, none, [⟨20, "rock"⟩]⟩,
               ⟨1, "b.mp3", "b.mp3", some ⟨10, "x"⟩, none, [⟨20, "rock"⟩]⟩],
    playlists := [], artists := [⟨10, "x"⟩], tags := [⟨20, "rock"⟩] }

theorem new_from_path_interning_invariant_witness :
    new_from_path "root" (.ok []) (.ok (.ok internSnapshot)) 50 =
      some (.ok internedLib) ∧
    ((∀ x ∈ internedLib.artists, ∀ y ∈ internedLib.artists, x.val = y.val → x = y) ∧
     (∀ x ∈ internedLib.tags, ∀ y ∈ internedLib.tags, x.val = y.val → x = y) ∧
     (∀ t ∈ internedLib.tracks, ∀ a, t.artist = some a → a ∈ internedLib.artists) ∧
     (∀ t ∈ internedLib.tracks, ∀ g ∈ t.tags, g ∈ internedLib.tags)) := by
  have hrun : new_from_path "root" (.ok []) (.ok (.ok internSnapshot)) 50 =
      some (.ok internedLib) := by
    have h1 : ("x" : String) ≠ "rock" := by decide
    have h2 : ("a.mp3" : String) ≠ "b.mp3" := by decide
    simp [new_from_path, loadedLib, internSnapshot, internedLib, scanLoop,
      processTracks, processTrack, internArtist, internTags, internTag,
      alookup, registerPlaylists, h1, h2]
  exact ⟨hrun, new_from_path_interning_invariant "root" _ _ 50 internedLib hrun⟩

/-- C6 counterexample: the `src/src/music.rs` scanner's allow list is
only `wav` and `mp3` — a `.flac` file, which the claim says both
evolutions catalog, is ignored by that evolution (with no snapshot
present, so the scan really runs). -/
theorem scanSrc_ignores_flac :
    extension "x.flac" = some "flac" ∧
    new_from_path_src "root" (.ok [.file "x.flac" true]) (.error ()) (.error ()) 0 =
      .ok { path := "root", tracks := [], playlists := [], tags := [] } := by
  constructor
  · decide
  · have hext : extension "x.flac" = some "flac" := by decide
    have h1 : ("flac" : String) ≠ "wav" := by decide
    have h2 : ("flac" : String) ≠ "mp3" := by decide
    have h3 : ("x.flac" : String) ≠ "music_library.json" := by decide
    simp [new_from_path_src, nodeName, List.find?, scanLoopSrc, hext, h1, h2, h3]

/-- The §8 scenario root: `a.mp3`, `sub/b.wav`, `notes.txt`. -/
def scenarioRoot : List FSNode :=
  [.file "a.mp3" true, .dirOk "sub" [.file "b.wav" true], .file "notes.txt" true]

/-- What the newer evolution catalogs from `scenarioRoot` (the work-list
walk pops the last root entry first, so `sub/b.wav` is discovered before
`a.mp3`). -/
def scenarioLib : MusicLibrary :=
  { path := "root",
    tracks := [⟨0, "sub/b.wav", "b.wav", none, none, []⟩,
               ⟨1, "a.mp3", "a.mp3", none, none, []⟩],
    playlists := [], artists := [], tags := [] }

/-- What the older evolution catalogs from `scenarioRoot`. -/
def scenarioLibSrc : MusicLibrarySrc :=
  { path := "root",
    tracks := [⟨0, "sub/b.wav", "b.wav", none, none, []⟩,
               ⟨1, "a.mp3", "a.mp3", none, none, []⟩],
    playlists := [], tags := [] }

/-- C6 (amended): a scanned file is cataloged exactly when its extension
(case-sensitively) is `wav`, `mp3` or `flac` in the newer scanner, and
exactly when it is `wav` or `mp3` in the older scanner — the older
evolution does not recognize `flac`; on the §8 scenario both evolutions
catalog exactly `a.mp3` and `sub/b.wav` and ignore `notes.txt`. -/
theorem scanners_catalog_by_extension :
    (∀ name : String,
      (scanLoop [(name, .file name true)] [] [] 0).1 ≠ [] ↔
        (extension name = some "wav" ∨ extension name = some "mp3" ∨
         extension name = some "flac")) ∧
    (∀ name : String,
      (scanLoopSrc [(name, .file name true)] [] 0).1 ≠ [] ↔
        (extension name = some "wav" ∨ extension name = some "mp3")) ∧
    (new_from_path "root" (.ok scenarioRoot) (.error ()) 0 =
        some (.ok scenarioLib) ∧
      scenarioLib.tracks.map Track.path = ["sub/b.wav", "a.mp3"]) ∧
    (new_from_path_src "root" (.ok scenarioRoot) (.error ()) (.error ()) 0 =
        .ok scenarioLibSrc ∧
      scenarioLibSrc.tracks.map Track.path = ["sub/b.wav", "a.mp3"]) := by
  have hmp3 : extension "a.mp3" = some "mp3" := by decide
  have hwav : extension "b.wav" = some "wav" := by decide
  have htxt : extension "notes.txt" = some "txt" := by decide
  have htxt1 : ("txt" : String) ≠ "wav" := by decide
  have htxt2 : ("txt" : String) ≠ "mp3" := by decide
  have htxt3 : ("txt" : String) ≠ "flac" := by decide
  have hjson : ∀ s ∈ scenarioRoot, ¬(nodeName s = "music_library.json") := by decide
  refine ⟨?_, ?_, ⟨?_, by decide⟩, ⟨?_, by decide⟩⟩
  · intro name
    rcases hext : extension name with _ | e
    · simp [scanLoop, hext]
    · by_cases he : e = "wav" ∨ e = "mp3" ∨ e = "flac" <;>
        simp [scanLoop, hext, he]
  · intro name
    rcases hext : extension name with _ | e
    · simp [scanLoopSrc, hext]
    · by_cases he : e = "wav" ∨ e = "mp3" <;>
        simp [scanLoopSrc, hext, he]
  · simp [new_from_path, loadedLib, scenarioRoot, scenarioLib, scanLoop,
      nodeName, hmp3, hwav, htxt, htxt1, htxt2, htxt3, processTracks,
      processTrack, internArtist, internTags, alookup, registerPlaylists]
  · simp [new_from_path_src, scenarioRoot, scenarioLibSrc, List.find?,
      nodeName, scanLoopSrc, hmp3, hwav, htxt, htxt1, htxt2]

theorem scanners_catalog_by_extension_witness :
    (scanLoop [("x.flac", .file "x.flac" true)] [] [] 0).1 ≠ [] ∧
    (scanLoopSrc [("x.flac", .file "x.flac" true)] [] 0).1 = [] ∧
    (scanLoop [("x.WAV", .file "x.WAV" true)] [] [] 0).1 = [] := by
  refine ⟨?_, ?_, ?_⟩
  · exact (scanners_catalog_by_extension.1 "x.flac").mpr (by decide)
  · have hno : ¬(extension "x.flac" = some "wav" ∨
        extension "x.flac" = some "mp3") := by decide
    exact not_ne_iff.mp
      (fun hne => hno ((scanners_catalog_by_extension.2.1 "x.flac").mp hne))
  · have hno : ¬(extension "x.WAV" = some "wav" ∨ extension "x.WAV" = some "mp3" ∨
        extension "x.WAV" = some "flac") := by decide
    exact not_ne_iff.mp
      (fun hne => hno ((scanners_catalog_by_extension.1 "x.WAV").mp hne))
